import Mathlib

/-
Shallow embedding of the password strength checker (src/password_checker.py).

Strings are modelled by Lean `String` (a packed `List Char`); character
classification (`islower`, `isupper`, `isdigit`, `isalnum`) and lowercasing
follow the source's semantics on ASCII via Lean's `Char` primitives.
Python's real-valued entropy is modelled by an exact real number; the
scorer's threshold comparisons on it are embedded through an equivalent
integer test (see `entropyLtTest` and its bridging lemma below).
The module-level file read performed by `load_common_words` is modelled by
passing the file contents explicitly: `none` models a missing file
(`FileNotFoundError`), `some lines` models the file's lines.
-/

/-- Python `str.lower()`, character by character (ASCII). -/
def strLower (s : String) : String := ⟨s.data.map Char.toLower⟩

/-- Boolean test that `p` is a prefix of `l` (used for Python `str.startswith`
and as the inner step of substring containment). -/
def prefixB : List Char → List Char → Bool
  | [], _ => true
  | _ :: _, [] => false
  | a :: p, b :: l => a == b && prefixB p l

/-- Boolean substring containment, Python's `w in s` on strings. -/
def substringB (w : List Char) : List Char → Bool
  | [] => prefixB w []
  | c :: rest => prefixB w (c :: rest) || substringB w rest

/-- Python `line.strip()`: drop leading and trailing whitespace. -/
def stripChars (l : List Char) : List Char :=
  ((l.dropWhile Char.isWhitespace).reverse.dropWhile Char.isWhitespace).reverse

/-- `_dedupe_preserve_order`, inner loop: `seen` models the `seen` set. -/
def dedupeAux (seen : List String) : List String → List String
  | [] => []
  | x :: xs => if x ∈ seen then dedupeAux seen xs else x :: dedupeAux (x :: seen) xs

/-- `_dedupe_preserve_order` from the source: keep the first occurrence of
each string, preserving order. -/
def dedupe_preserve_order (items : List String) : List String := dedupeAux [] items

/-- `load_common_words`, with the contents of the word-list file passed as
explicit state. The Python function builds a `set` of the stripped,
lowercased, non-blank, non-comment lines; the model returns that set as a
duplicate-free list (Python set iteration order is unspecified; the model
fixes first-occurrence order). -/
def load_common_words (fs : Option (List String)) : List String :=
  match fs with
  | none => []
  | some lines =>
      dedupe_preserve_order
        ((lines.filter (fun line =>
            !(stripChars line.data).isEmpty &&
            !prefixB ['#'] (line.data.dropWhile Char.isWhitespace))).map
          (fun line => strLower ⟨stripChars line.data⟩))

/-- `find_dictionary_hits` from the source: words of length ≥ 4 occurring in
the lowercased password, sorted by length descending. Python's stable
`list.sort(key=len, reverse=True)` is modelled by insertion sort on the
relation `length b ≤ length a`; ties keep an order the spec leaves
unspecified. -/
def find_dictionary_hits (password : String) (common_words : List String) : List String :=
  let s := strLower password
  let hits := common_words.filter (fun w => decide (4 ≤ w.length) && substringB w.data s.data)
  List.insertionSort (fun a b => b.length ≤ a.length) hits

/-- The `charset` accumulated by `estimate_entropy_bits` in the source. -/
def charsetSize (password : String) : ℕ :=
  (if password.data.any Char.isLower then 26 else 0) +
  (if password.data.any Char.isUpper then 26 else 0) +
  (if password.data.any Char.isDigit then 10 else 0) +
  (if password.data.any (fun c => !c.isAlphanum) then 33 else 0)

/-- `estimate_entropy_bits` from the source:
`0.0` when the charset is empty, else `len(password) * log2(charset)`,
modelled over the exact reals. -/
noncomputable def estimate_entropy_bits (password : String) : ℝ :=
  if charsetSize password = 0 then 0
  else (password.length : ℝ) * Real.logb 2 (charsetSize password)

/-- The scorer compares `estimate_entropy_bits password` with the thresholds
40 and 70. Since the entropy is `len * logb 2 charset`, that comparison is
equivalent to the integer test `charset ^ len < 2 ^ t` (lemma
`entropyLtTest_iff_lt` below); the scorer branches on this decidable test. -/
def entropyLtTest (password : String) (t : ℕ) : Bool :=
  decide (charsetSize password ^ password.length < 2 ^ t)

/-- `has_simple_sequence`, diffs of one chunk, as in the source:
`ord(chunk[j+1]) - ord(chunk[j])` for `j in range(min_len - 1)`. -/
def chunkDiffs (chunk : List Char) (min_len : ℕ) : List ℤ :=
  (List.range (min_len - 1)).map
    (fun j => ((chunk.getD (j + 1) 'a').toNat : ℤ) - ((chunk.getD j 'a').toNat : ℤ))

/-- `has_simple_sequence` from the source. `range(len(s) - min_len + 1)` is
computed over the integers (so that a too-short password yields an empty
range) and converted with `Int.toNat`. -/
def has_simple_sequence (password : String) (min_len : ℕ) : Bool :=
  let s := (strLower password).data
  (List.range (((s.length : ℤ) - (min_len : ℤ) + 1).toNat)).any (fun i =>
    let chunk := (s.drop i).take min_len
    let diffs := chunkDiffs chunk min_len
    diffs.all (fun d => d == 1) || diffs.all (fun d => d == -1))

/-- `has_repeated_run`, main loop: walk the remaining characters, counting
consecutive characters equal to the previous one, resetting on change. -/
def runLoop (run_len : ℕ) : List Char → Char → ℕ → Bool
  | [], _, _ => false
  | c :: rest, prev, count =>
      if c == prev then
        if run_len ≤ count + 1 then true else runLoop run_len rest c (count + 1)
      else runLoop run_len rest c 1

/-- `has_repeated_run` from the source: `run_len <= 1` is rejected, then a
single left-to-right pass counts consecutive equal characters. -/
def has_repeated_run (password : String) (run_len : ℕ) : Bool :=
  if run_len ≤ 1 then false
  else
    match password.data with
    | [] => false
    | c :: rest => runLoop run_len rest c 1

/-- `strength_label` from the source. -/
def strength_label (score : ℤ) : String :=
  if score < 30 then "VERY WEAK"
  else if score < 50 then "WEAK"
  else if score < 70 then "OKAY"
  else "STRONG"

/-- Number of character categories present, from the source's
`sum([has_lower, has_upper, has_digit, has_symbol])`. -/
def categoriesCount (password : String) : ℕ :=
  (if password.data.any Char.isLower then 1 else 0) +
  (if password.data.any Char.isUpper then 1 else 0) +
  (if password.data.any Char.isDigit then 1 else 0) +
  (if password.data.any (fun c => !c.isAlphanum) then 1 else 0)

/-- Python `', '.join` on a list of strings. -/
def joinWith (sep : String) : List String → String
  | [] => ""
  | [x] => x
  | x :: y :: xs => x ++ sep ++ joinWith sep (y :: xs)

/-- Models Python's `f"{x:.1f}"` for the nonnegative entropy values that the
source interpolates into findings: round to one decimal and print. -/
noncomputable def pyFloatFmt1 (x : ℝ) : String :=
  let n : ℤ := round (x * 10)
  toString (n / 10) ++ "." ++ toString (n % 10)

/-- `calculate_score_and_suggestions` from the source, with the contents of
the word-list file (read via `load_common_words`) passed as explicit state.
Returns `(score, findings, suggestions, entropy_bits)`. The two entropy
threshold branches use `entropyLtTest` in place of the source's float
comparison; lemma `entropyLtTest_iff_lt` proves them equivalent. -/
noncomputable def calculate_score_and_suggestions (fs : Option (List String)) (password : String) :
    ℤ × List String × List String × ℝ :=
  let length := password.length
  let entropy := estimate_entropy_bits password
  let score : ℤ := 0
  let common_words := load_common_words fs
  let hits := find_dictionary_hits password common_words
  let findings : List String :=
    if hits ≠ [] then ["Contains common word(s): " ++ joinWith ", " (hits.take 3) ++ "."] else []
  let suggestions : List String :=
    if hits ≠ [] then ["Avoid common words/names; use random phrases or a password manager."] else []
  let score := if hits ≠ [] then score - 25 else score
  if length = 0 then
    (0, findings ++ ["Password is empty."],
     dedupe_preserve_order
       (suggestions ++ ["Use a password manager to generate a long random password."]),
     entropy)
  else
    let findings := findings ++
      [if length < 8 then "Too short (< 8 characters)."
       else if length < 12 then "Short (8–11 characters)."
       else if length < 16 then "Good length (12–15 characters)."
       else "Great length (16+ characters)."]
    let suggestions := suggestions ++
      (if length < 8 then ["Increase length to at least 12–14 characters."]
       else if length < 12 then ["Increase length to 12–14+ characters."]
       else [])
    let score := score +
      (if length < 8 then 5 else if length < 12 then 20 else if length < 16 then 32 else 40)
    let categories := categoriesCount password
    let findings := findings ++ ["Character types used: " ++ toString categories ++ "/4."]
    let score := score + (categories : ℤ) * 10
    let suggestions := suggestions ++
      (if categories < 3 then ["Mix uppercase, lowercase, digits, and symbols."] else [])
    let findings := findings ++
      [if entropyLtTest password 40 then
         "Low estimated entropy (~" ++ pyFloatFmt1 entropy ++ " bits)."
       else if entropyLtTest password 70 then
         "Moderate estimated entropy (~" ++ pyFloatFmt1 entropy ++ " bits)."
       else "High estimated entropy (~" ++ pyFloatFmt1 entropy ++ " bits)."]
    let suggestions := suggestions ++
      (if entropyLtTest password 40 then ["Make it longer and less predictable."] else [])
    let score := score +
      (if entropyLtTest password 40 then 0 else if entropyLtTest password 70 then 10 else 20)
    let findings := findings ++
      (if has_simple_sequence password 4 then ["Contains a simple sequence (e.g., 1234 / abcd)."]
       else [])
    let suggestions := suggestions ++
      (if has_simple_sequence password 4 then ["Avoid sequences like 1234 or abcd."] else [])
    let score := score + (if has_simple_sequence password 4 then -15 else 0)
    let findings := findings ++
      (if has_repeated_run password 4 then ["Contains repeated characters (e.g., aaaa / 1111)."]
       else [])
    let suggestions := suggestions ++
      (if has_repeated_run password 4 then ["Avoid repeated characters like aaaa."] else [])
    let score := score + (if has_repeated_run password 4 then -15 else 0)
    let score := max 0 (min score 100)
    (score, findings, dedupe_preserve_order suggestions, entropy)

/-- Modelled from the spec (section 4.5 step 10 wording): keep each distinct
string's first occurrence, in first-occurrence order. Used to state what
`dedupe_preserve_order` computes. -/
def dedupFirst : List String → List String
  | [] => []
  | x :: xs => x :: dedupFirst (xs.filter (fun y => decide (y ≠ x)))
termination_by l => l.length
decreasing_by simp only [List.length_cons]; exact Nat.lt_succ_of_le (List.length_filter_le _ _)

/-- Modelled from the spec: the core API signature
`scorePassword(password, words)` (spec section 6), i.e. the scoring pipeline
with the word set supplied by the caller instead of read from the file
system. Body identical to `calculate_score_and_suggestions` except for the
origin of `common_words`. -/
noncomputable def scorePassword (words : List String) (password : String) :
    ℤ × List String × List String × ℝ :=
  let length := password.length
  let entropy := estimate_entropy_bits password
  let score : ℤ := 0
  let common_words := words
  let hits := find_dictionary_hits password common_words
  let findings : List String :=
    if hits ≠ [] then ["Contains common word(s): " ++ joinWith ", " (hits.take 3) ++ "."] else []
  let suggestions : List String :=
    if hits ≠ [] then ["Avoid common words/names; use random phrases or a password manager."] else []
  let score := if hits ≠ [] then score - 25 else score
  if length = 0 then
    (0, findings ++ ["Password is empty."],
     dedupe_preserve_order
       (suggestions ++ ["Use a password manager to generate a long random password."]),
     entropy)
  else
    let findings := findings ++
      [if length < 8 then "Too short (< 8 characters)."
       else if length < 12 then "Short (8–11 characters)."
       else if length < 16 then "Good length (12–15 characters)."
       else "Great length (16+ characters)."]
    let suggestions := suggestions ++
      (if length < 8 then ["Increase length to at least 12–14 characters."]
       else if length < 12 then ["Increase length to 12–14+ characters."]
       else [])
    let score := score +
      (if length < 8 then 5 else if length < 12 then 20 else if length < 16 then 32 else 40)
    let categories := categoriesCount password
    let findings := findings ++ ["Character types used: " ++ toString categories ++ "/4."]
    let score := score + (categories : ℤ) * 10
    let suggestions := suggestions ++
      (if categories < 3 then ["Mix uppercase, lowercase, digits, and symbols."] else [])
    let findings := findings ++
      [if entropyLtTest password 40 then
         "Low estimated entropy (~" ++ pyFloatFmt1 entropy ++ " bits)."
       else if entropyLtTest password 70 then
         "Moderate estimated entropy (~" ++ pyFloatFmt1 entropy ++ " bits)."
       else "High estimated entropy (~" ++ pyFloatFmt1 entropy ++ " bits)."]
    let suggestions := suggestions ++
      (if entropyLtTest password 40 then ["Make it longer and less predictable."] else [])
    let score := score +
      (if entropyLtTest password 40 then 0 else if entropyLtTest password 70 then 10 else 20)
    let findings := findings ++
      (if has_simple_sequence password 4 then ["Contains a simple sequence (e.g., 1234 / abcd)."]
       else [])
    let suggestions := suggestions ++
      (if has_simple_sequence password 4 then ["Avoid sequences like 1234 or abcd."] else [])
    let score := score + (if has_simple_sequence password 4 then -15 else 0)
    let findings := findings ++
      (if has_repeated_run password 4 then ["Contains repeated characters (e.g., aaaa / 1111)."]
       else [])
    let suggestions := suggestions ++
      (if has_repeated_run password 4 then ["Avoid repeated characters like aaaa."] else [])
    let score := score + (if has_repeated_run password 4 then -15 else 0)
    let score := max 0 (min score 100)
    (score, findings, dedupe_preserve_order suggestions, entropy)

open Classical in
/-- Modelled from the spec: the component sum claimed for the final score
(dictionary penalty, length band, variety, entropy bonus over the
real-valued entropy, sequence and repeat penalties), before clamping. -/
noncomputable def spec_component_sum (words : List String) (password : String) : ℤ :=
  (if find_dictionary_hits password words ≠ [] then -25 else 0) +
  (if password.length < 8 then 5
   else if password.length < 12 then 20
   else if password.length < 16 then 32 else 40) +
  (categoriesCount password : ℤ) * 10 +
  (if estimate_entropy_bits password < 40 then 0
   else if estimate_entropy_bits password < 70 then 10 else 20) +
  (if has_simple_sequence password 4 then -15 else 0) +
  (if has_repeated_run password 4 then -15 else 0)

/-- The findings list exactly as accumulated by the scoring pipeline (the
source appends to `findings` and returns it unmodified). -/
noncomputable def raw_findings (fs : Option (List String)) (password : String) : List String :=
  let length := password.length
  let entropy := estimate_entropy_bits password
  let hits := find_dictionary_hits password (load_common_words fs)
  let findings : List String :=
    if hits ≠ [] then ["Contains common word(s): " ++ joinWith ", " (hits.take 3) ++ "."] else []
  if length = 0 then findings ++ ["Password is empty."]
  else
    ((((findings ++
      [if length < 8 then "Too short (< 8 characters)."
       else if length < 12 then "Short (8–11 characters)."
       else if length < 16 then "Good length (12–15 characters)."
       else "Great length (16+ characters)."]) ++
      ["Character types used: " ++ toString (categoriesCount password) ++ "/4."]) ++
      [if entropyLtTest password 40 then
         "Low estimated entropy (~" ++ pyFloatFmt1 entropy ++ " bits)."
       else if entropyLtTest password 70 then
         "Moderate estimated entropy (~" ++ pyFloatFmt1 entropy ++ " bits)."
       else "High estimated entropy (~" ++ pyFloatFmt1 entropy ++ " bits)."]) ++
      (if has_simple_sequence password 4 then ["Contains a simple sequence (e.g., 1234 / abcd)."]
       else [])) ++
      (if has_repeated_run password 4 then ["Contains repeated characters (e.g., aaaa / 1111)."]
       else [])

/-- The suggestions list exactly as accumulated by the scoring pipeline,
before the final `_dedupe_preserve_order`. -/
def raw_suggestions (fs : Option (List String)) (password : String) : List String :=
  let length := password.length
  let hits := find_dictionary_hits password (load_common_words fs)
  let suggestions : List String :=
    if hits ≠ [] then ["Avoid common words/names; use random phrases or a password manager."] else []
  if length = 0 then
    suggestions ++ ["Use a password manager to generate a long random password."]
  else
    ((((suggestions ++
      (if length < 8 then ["Increase length to at least 12–14 characters."]
       else if length < 12 then ["Increase length to 12–14+ characters."]
       else [])) ++
      (if categoriesCount password < 3 then ["Mix uppercase, lowercase, digits, and symbols."]
       else [])) ++
      (if entropyLtTest password 40 then ["Make it longer and less predictable."] else [])) ++
      (if has_simple_sequence password 4 then ["Avoid sequences like 1234 or abcd."] else [])) ++
      (if has_repeated_run password 4 then ["Avoid repeated characters like aaaa."] else [])

theorem prefixB_iff (p : List Char) : ∀ l, prefixB p l = true ↔ p <+: l := by
  induction p with
  | nil => intro l; simp [prefixB]
  | cons a p ih =>
    intro l
    cases l with
    | nil => simp [prefixB]
    | cons b l => simp [prefixB, List.cons_prefix_cons, ih, Bool.and_eq_true, beq_iff_eq]

theorem substringB_iff (w : List Char) : ∀ s, substringB w s = true ↔ w <:+: s := by
  intro s
  induction s with
  | nil =>
    rw [substringB, prefixB_iff]
    constructor
    · intro h
      exact h.isInfix
    · intro h
      rw [List.eq_nil_of_infix_nil h]
  | cons c r ih =>
    rw [substringB, Bool.or_eq_true, prefixB_iff, ih, List.infix_cons_iff]

theorem find_dictionary_hits_of_empty (words : List String) :
    find_dictionary_hits "" words = [] := by
  have hnil : words.filter
      (fun w => decide (4 ≤ w.length) && substringB w.data (strLower "").data) = [] := by
    rw [List.filter_eq_nil_iff]
    intro w _
    cases hw : w.data with
    | nil =>
      have hweq : w = "" := String.ext (hw.trans rfl)
      subst hweq
      decide
    | cons c cs => simp [substringB, prefixB, hw]
  simp only [find_dictionary_hits]
  rw [hnil]
  rfl

/-- C4: scoring the empty password returns score 0, the "empty" finding, the
password-manager suggestion and entropy 0, whatever the word-list file
holds (the dictionary check runs first but can produce no hits for an empty
password). -/
theorem empty_password_result (fs : Option (List String)) :
    calculate_score_and_suggestions fs "" =
      (0, ["Password is empty."],
       ["Use a password manager to generate a long random password."], 0) := by
  have hent : estimate_entropy_bits "" = 0 := rfl
  simp only [calculate_score_and_suggestions, find_dictionary_hits_of_empty, hent]
  norm_num
  rfl

/-- C1: for every file-system state and every password the returned score is
clamped into [0, 100], whatever the intermediate running total was. -/
theorem score_clamped_in_range (fs : Option (List String)) (password : String) :
    0 ≤ (calculate_score_and_suggestions fs password).1 ∧
    (calculate_score_and_suggestions fs password).1 ≤ 100 := by
  simp only [calculate_score_and_suggestions]
  split
  · exact ⟨le_refl 0, by norm_num⟩
  · refine ⟨le_max_left 0 _, max_le (by norm_num) (min_le_right _ 100)⟩

/-- C3, counterexample: the score of one and the same password differs
between two file-system states, so the result is not a function of the
password and a caller-supplied word set alone — the file system contents
influence it. -/
theorem score_depends_on_filesystem :
    (calculate_score_and_suggestions (some ["password"]) "password").1 ≠
      (calculate_score_and_suggestions none "password").1 := by decide

/-- C3, amended: the scorer reads the word set from the file system via
`load_common_words` instead of taking it from the caller; for a fixed
file-system state it is deterministic and depends on the file system only
through the loaded word set — it equals the spec-signature `scorePassword`
applied to the loaded words. -/
theorem score_factors_through_loaded_words (fs : Option (List String)) (password : String) :
    calculate_score_and_suggestions fs password =
      scorePassword (load_common_words fs) password := rfl

/-- C9: the label tiers are `<30` VERY WEAK, `<50` WEAK, `<70` OKAY, else
STRONG, with the six boundary values of the claim. -/
theorem strength_label_tiers :
    (∀ s : ℤ, s < 30 → strength_label s = "VERY WEAK") ∧
    (∀ s : ℤ, 30 ≤ s → s < 50 → strength_label s = "WEAK") ∧
    (∀ s : ℤ, 50 ≤ s → s < 70 → strength_label s = "OKAY") ∧
    (∀ s : ℤ, 70 ≤ s → strength_label s = "STRONG") ∧
    strength_label 29 = "VERY WEAK" ∧ strength_label 30 = "WEAK" ∧
    strength_label 49 = "WEAK" ∧ strength_label 50 = "OKAY" ∧
    strength_label 69 = "OKAY" ∧ strength_label 70 = "STRONG" := by
  refine ⟨?_, ?_, ?_, ?_, by decide, by decide, by decide, by decide, by decide, by decide⟩
  all_goals intro s
  all_goals intros
  all_goals unfold strength_label
  all_goals split_ifs <;> first | rfl | omega

/-- Witness for C9 at the concrete boundary input 29. -/
theorem strength_label_tiers_witness : (29 : ℤ) < 30 ∧ strength_label 29 = "VERY WEAK" :=
  ⟨by decide, strength_label_tiers.1 29 (by decide)⟩

/-- C6: find_dictionary_hits returns exactly the words of length ≥ 4 that
occur in the lowercased password — no others, none missing, no duplicates
when the word set has none — ordered by length non-increasing. -/
theorem dictionary_hits_characterization (password : String) (words : List String)
    (hw : words.Nodup) :
    (∀ w, w ∈ find_dictionary_hits password words ↔
        w ∈ words ∧ 4 ≤ w.length ∧ w.data <:+: (strLower password).data) ∧
    (find_dictionary_hits password words).Nodup ∧
    List.Pairwise (fun a b : String => b.length ≤ a.length)
      (find_dictionary_hits password words) := by
  haveI htot : IsTotal String (fun a b => b.length ≤ a.length) :=
    ⟨fun a b => le_total b.length a.length⟩
  haveI htrans : IsTrans String (fun a b => b.length ≤ a.length) :=
    ⟨fun a b c h1 h2 => le_trans h2 h1⟩
  simp only [find_dictionary_hits]
  refine ⟨?_, ?_, ?_⟩
  · intro w
    rw [List.mem_insertionSort, List.mem_filter, Bool.and_eq_true, decide_eq_true_iff,
      substringB_iff]
  · exact (List.perm_insertionSort _ _).symm.nodup (hw.filter _)
  · exact List.sorted_insertionSort _ _

/-- Witness for C6 at the spec's example inputs. -/
theorem dictionary_hits_characterization_witness :
    ["password", "admin", "welcome"].Nodup ∧
    "password" ∈ find_dictionary_hits "Password1234!" ["password", "admin", "welcome"] := by
  refine ⟨by decide, ?_⟩
  exact ((dictionary_hits_characterization "Password1234!" ["password", "admin", "welcome"]
    (by decide)).1 "password").mpr ⟨by decide, by decide, (substringB_iff _ _).mp (by decide)⟩

theorem dedupeAux_eq_dedupFirst (l : List String) :
    ∀ seen, dedupeAux seen l = dedupFirst (l.filter (fun y => decide (y ∉ seen))) := by
  induction l with
  | nil => intro seen; simp [dedupeAux, dedupFirst]
  | cons x xs ih =>
    intro seen
    by_cases hx : x ∈ seen
    · rw [dedupeAux, if_pos hx, List.filter_cons_of_neg (by simp [hx]), ih]
    · have hpred : List.filter (fun y => decide (y ∉ x :: seen)) xs =
          List.filter (fun a => decide (a ≠ x) && decide (a ∉ seen)) xs := by
        apply List.filter_congr
        intro a _
        by_cases h1 : a = x <;> by_cases h2 : a ∈ seen <;> simp [h1, h2]
      rw [dedupeAux, if_neg hx, List.filter_cons_of_pos (by simp [hx]), dedupFirst,
        List.filter_filter, ih, hpred]

theorem dedupe_preserve_order_eq_dedupFirst (l : List String) :
    dedupe_preserve_order l = dedupFirst l := by
  rw [dedupe_preserve_order, dedupeAux_eq_dedupFirst]
  congr 1
  simp

theorem dedupeAux_nodup (l : List String) :
    ∀ seen, (dedupeAux seen l).Nodup ∧ ∀ y ∈ dedupeAux seen l, y ∉ seen := by
  induction l with
  | nil => intro seen; exact ⟨List.nodup_nil, by simp [dedupeAux]⟩
  | cons x xs ih =>
    intro seen
    by_cases hx : x ∈ seen
    · rw [dedupeAux, if_pos hx]; exact ih seen
    · rw [dedupeAux, if_neg hx]
      obtain ⟨hnd, hmem⟩ := ih (x :: seen)
      constructor
      · rw [List.nodup_cons]
        exact ⟨fun hxin => (hmem x hxin) (List.mem_cons_self x seen), hnd⟩
      · intro y hy
        rcases List.mem_cons.mp hy with rfl | hy2
        · exact hx
        · exact fun hys => hmem y hy2 (List.mem_cons_of_mem _ hys)

theorem calc_findings_eq (fs : Option (List String)) (p : String) :
    (calculate_score_and_suggestions fs p).2.1 = raw_findings fs p := by
  by_cases h : p.length = 0 <;>
    simp [calculate_score_and_suggestions, raw_findings, h]

theorem calc_suggestions_eq (fs : Option (List String)) (p : String) :
    (calculate_score_and_suggestions fs p).2.2.1 =
      dedupe_preserve_order (raw_suggestions fs p) := by
  by_cases h : p.length = 0 <;>
    simp [calculate_score_and_suggestions, raw_suggestions, h]

/-- C10: the returned suggestions are the accumulated suggestions
deduplicated to first occurrences (hence duplicate-free and in
first-occurrence order, as `dedupFirst` makes explicit), while the findings
are returned exactly as accumulated, with no deduplication. -/
theorem suggestions_deduped_findings_raw (fs : Option (List String)) (password : String) :
    (calculate_score_and_suggestions fs password).2.2.1 =
        dedupe_preserve_order (raw_suggestions fs password) ∧
    (calculate_score_and_suggestions fs password).2.2.1 =
        dedupFirst (raw_suggestions fs password) ∧
    ((calculate_score_and_suggestions fs password).2.2.1).Nodup ∧
    (calculate_score_and_suggestions fs password).2.1 = raw_findings fs password := by
  have h1 := calc_suggestions_eq fs password
  refine ⟨h1, h1.trans (dedupe_preserve_order_eq_dedupFirst _), ?_,
    calc_findings_eq fs password⟩
  rw [h1]
  exact (dedupeAux_nodup _ []).1

theorem entropyLtTest_iff_lt (password : String) (t : ℕ) (ht : 1 ≤ t) :
    entropyLtTest password t = true ↔ estimate_entropy_bits password < (t : ℝ) := by
  rw [entropyLtTest, decide_eq_true_iff, estimate_entropy_bits]
  by_cases hcs : charsetSize password = 0
  · rw [if_pos hcs, hcs]
    constructor
    · intro _
      exact_mod_cast Nat.lt_of_lt_of_le Nat.zero_lt_one ht
    · intro _
      cases hlen : password.length with
      | zero => simpa [hlen] using Nat.one_lt_two_pow_iff.mpr (by omega)
      | succ n =>
        have h0 : (0 : ℕ) ^ (n + 1) = 0 := by simp
        rw [h0]
        exact pow_pos (by norm_num) t
  · rw [if_neg hcs]
    have hcs1 : 0 < charsetSize password := Nat.pos_of_ne_zero hcs
    have hcspos : (0 : ℝ) < (charsetSize password : ℝ) := by exact_mod_cast hcs1
    have hxpos : (0 : ℝ) < (charsetSize password : ℝ) ^ password.length := pow_pos hcspos _
    rw [show (password.length : ℝ) * Real.logb 2 (charsetSize password) =
        Real.logb 2 ((charsetSize password : ℝ) ^ password.length) from
      (Real.logb_pow 2 _ _).symm]
    rw [Real.logb_lt_iff_lt_rpow (by norm_num) hxpos, Real.rpow_natCast]
    constructor
    · intro h
      exact_mod_cast h
    · intro h
      exact_mod_cast h

/-- C5: the entropy estimate equals `length * log2(charsetSize)` with the
claimed per-class alphabet sizes 26/26/10/33, and is exactly 0 when no
class is present. -/
theorem entropy_formula (p : String) :
    estimate_entropy_bits p =
      (p.length : ℝ) * Real.logb 2
        (((if p.data.any Char.isLower then 26 else 0) +
          (if p.data.any Char.isUpper then 26 else 0) +
          (if p.data.any Char.isDigit then 10 else 0) +
          (if p.data.any (fun c => !c.isAlphanum) then 33 else 0) : ℕ)) ∧
    ((p.data.any Char.isLower = false ∧ p.data.any Char.isUpper = false ∧
      p.data.any Char.isDigit = false ∧ p.data.any (fun c => !c.isAlphanum) = false) →
      estimate_entropy_bits p = 0) := by
  have hsum : ((if p.data.any Char.isLower then 26 else 0) +
      (if p.data.any Char.isUpper then 26 else 0) +
      (if p.data.any Char.isDigit then 10 else 0) +
      (if p.data.any (fun c => !c.isAlphanum) then 33 else 0) : ℕ) = charsetSize p := rfl
  constructor
  · rw [hsum, estimate_entropy_bits]
    by_cases hcs : charsetSize p = 0
    · rw [if_pos hcs, hcs]
      rw [Nat.cast_zero, Real.logb_zero, mul_zero]
    · rw [if_neg hcs]
  · intro ⟨h1, h2, h3, h4⟩
    have hcs : charsetSize p = 0 := by simp [charsetSize, h1, h2, h3, h4]
    rw [estimate_entropy_bits, if_pos hcs]

/-- Witness for C5: the empty password has no class present and entropy 0. -/
theorem entropy_formula_witness :
    ("".data.any Char.isLower = false ∧ "".data.any Char.isUpper = false ∧
     "".data.any Char.isDigit = false ∧ "".data.any (fun c => !c.isAlphanum) = false) ∧
    estimate_entropy_bits "" = 0 :=
  ⟨by decide, (entropy_formula "").2 (by decide)⟩

open Classical in
/-- C2: for every non-empty password, whatever the word-list file holds, the
returned score is the clamp into [0,100] of the claim's component sum:
dictionary penalty, length band, 10 per character class, entropy bonus over
the real-valued entropy, and the two pattern penalties. -/
theorem score_eq_component_sum (fs : Option (List String)) (password : String)
    (h : password ≠ "") :
    (calculate_score_and_suggestions fs password).1 =
      max 0 (min (spec_component_sum (load_common_words fs) password) 100) := by
  have hlen : password.length ≠ 0 := by
    intro h0
    apply h
    have hd : password.data.length = 0 := h0
    exact String.ext (List.eq_nil_of_length_eq_zero hd)
  have h40 := entropyLtTest_iff_lt password 40 (by norm_num)
  have h70 := entropyLtTest_iff_lt password 70 (by norm_num)
  have hbonus : (if estimate_entropy_bits password < 40 then (0 : ℤ)
      else if estimate_entropy_bits password < 70 then 10 else 20) =
      (if entropyLtTest password 40 = true then (0 : ℤ)
       else if entropyLtTest password 70 = true then 10 else 20) :=
    if_congr h40.symm rfl (if_congr h70.symm rfl rfl)
  simp only [calculate_score_and_suggestions, spec_component_sum]
  rw [if_neg hlen, hbonus]
  dsimp only
  split_ifs <;> omega

/-- Witness for C2 at a concrete non-empty password. -/
theorem score_eq_component_sum_witness :
    ("Abcd1234!!" : String) ≠ "" ∧
    (calculate_score_and_suggestions none "Abcd1234!!").1 =
      max 0 (min (spec_component_sum (load_common_words none) "Abcd1234!!") 100) :=
  ⟨by decide, score_eq_component_sum none "Abcd1234!!" (by decide)⟩

theorem replicate_prefix_bound (c prev : Char) (rest : List Char) (hne : c ≠ prev) :
    ∀ m count, List.replicate m prev <+: (List.replicate count prev ++ c :: rest) →
      m ≤ count := by
  intro m
  induction m with
  | zero => intro count _; exact Nat.zero_le count
  | succ k ih =>
    intro count hpre
    cases count with
    | zero =>
      rw [List.replicate_succ] at hpre
      simp only [List.replicate, List.nil_append] at hpre
      rw [List.cons_prefix_cons] at hpre
      exact absurd hpre.1.symm hne
    | succ j =>
      rw [List.replicate_succ] at hpre
      rw [List.replicate_succ, List.cons_append] at hpre
      rw [List.cons_prefix_cons] at hpre
      exact Nat.succ_le_succ (ih j hpre.2)

theorem replicate_run_in_tail (ch prev c : Char) (rest : List Char) (hne : c ≠ prev) (n : ℕ)
    (hn : 1 ≤ n) :
    ∀ count, count < n →
      List.replicate n ch <:+: (List.replicate count prev ++ c :: rest) →
      List.replicate n ch <:+: (c :: rest) := by
  intro count
  induction count with
  | zero => intro _ h; simpa using h
  | succ j ih =>
    intro hlt hinf
    rw [List.replicate_succ, List.cons_append] at hinf
    rcases List.infix_cons_iff.mp hinf with hpre | htail
    · obtain ⟨k, rfl⟩ : ∃ k, n = k + 1 := ⟨n - 1, by omega⟩
      rw [List.replicate_succ, List.cons_prefix_cons] at hpre
      obtain ⟨rfl, hpre2⟩ := hpre
      have hk := replicate_prefix_bound c ch rest hne k j hpre2
      omega
    · exact ih (by omega) htail

theorem runLoop_true_iff (n : ℕ) (hn : 2 ≤ n) :
    ∀ (l : List Char) (prev : Char) (count : ℕ), 1 ≤ count → count < n →
      (runLoop n l prev count = true ↔
        ∃ c, List.replicate n c <:+: (List.replicate count prev ++ l)) := by
  intro l
  induction l with
  | nil =>
    intro prev count h1 hlt
    rw [runLoop]
    simp only [List.append_nil]
    refine iff_of_false (by simp) ?_
    rintro ⟨c, hinf⟩
    have hsub := hinf.sublist
    rw [List.sublist_replicate_iff] at hsub
    obtain ⟨k, hk, heq⟩ := hsub
    have hlen := congrArg List.length heq
    simp only [List.length_replicate] at hlen
    omega
  | cons c l ih =>
    intro prev count h1 hlt
    rw [runLoop]
    by_cases hc : c = prev
    · subst hc
      rw [if_pos (by simp)]
      by_cases hcnt : n ≤ count + 1
      · rw [if_pos hcnt]
        refine iff_of_true rfl ?_
        refine ⟨c, ?_⟩
        have hrw : List.replicate count c ++ c :: l = List.replicate (count + 1) c ++ l := by
          rw [List.replicate_succ', List.append_assoc]
          rfl
        rw [hrw]
        have hsplit : List.replicate (count + 1) c =
            List.replicate n c ++ List.replicate (count + 1 - n) c := by
          rw [← List.replicate_add]
          congr 1
          omega
        rw [hsplit, List.append_assoc]
        exact (List.prefix_append _ _).isInfix
      · rw [if_neg hcnt]
        have hih := ih c (count + 1) (by omega) (by omega)
        rw [hih]
        have hrw : List.replicate (count + 1) c ++ l = List.replicate count c ++ c :: l := by
          rw [List.replicate_succ', List.append_assoc]
          rfl
        rw [hrw]
    · rw [if_neg (by simp [hc])]
      have hih := ih c 1 (le_refl 1) (by omega)
      rw [hih]
      rw [show List.replicate 1 c ++ l = c :: l from rfl]
      constructor
      · rintro ⟨ch, hinf⟩
        exact ⟨ch, hinf.trans (List.suffix_append _ _).isInfix⟩
      · rintro ⟨ch, hinf⟩
        exact ⟨ch, replicate_run_in_tail ch prev c l hc n (by omega) count hlt hinf⟩

/-- C8: for run length ≥ 2, has_repeated_run is true exactly when some
character fills at least run_len consecutive positions of the password (a
length-run_len replicate occurs as an infix); for run length ≤ 1 it is
false for every password. -/
theorem repeated_run_iff_replicate (password : String) (n : ℕ) :
    (2 ≤ n → (has_repeated_run password n = true ↔
      ∃ c, List.replicate n c <:+: password.data)) ∧
    (n ≤ 1 → has_repeated_run password n = false) := by
  constructor
  · intro hn
    rw [has_repeated_run, if_neg (by omega)]
    cases hp : password.data with
    | nil =>
      refine iff_of_false (by simp) ?_
      rintro ⟨c, hinf⟩
      have hnil := List.eq_nil_of_infix_nil hinf
      have hlen := congrArg List.length hnil
      simp only [List.length_replicate, List.length_nil] at hlen
      omega
    | cons c rest =>
      have h := runLoop_true_iff n hn rest c 1 (le_refl 1) (by omega)
      rw [show List.replicate 1 c ++ rest = c :: rest from rfl] at h
      exact h
  · intro hn
    rw [has_repeated_run, if_pos hn]

/-- Witness for C8 at the spec's example input. -/
theorem repeated_run_iff_replicate_witness :
    2 ≤ 4 ∧ has_repeated_run "AAAA1111!!!!" 4 = true :=
  ⟨by decide, ((repeated_run_iff_replicate "AAAA1111!!!!" 4).1 (by decide)).mpr
    ⟨'A', ⟨[], ['1', '1', '1', '1', '!', '!', '!', '!'], by decide⟩⟩⟩

theorem chunkDiffs_all_iff (chunk : List Char) (m : ℕ) (hm : chunk.length = m) (d : ℤ)
    (R : Char → Char → Prop) (hR : ∀ a b, R a b ↔ ((b.toNat : ℤ) - (a.toNat : ℤ) = d)) :
    (chunkDiffs chunk m).all (fun x => x == d) = true ↔ List.Chain' R chunk := by
  rw [List.all_eq_true, List.chain'_iff_get]
  constructor
  · intro h i hi
    rw [List.get_eq_getElem, List.get_eq_getElem, hR]
    have hb1 : i < chunk.length := by omega
    have hb2 : i + 1 < chunk.length := by omega
    have hmem : (((chunk.getD (i + 1) 'a').toNat : ℤ) - ((chunk.getD i 'a').toNat : ℤ)) ∈
        chunkDiffs chunk m := by
      rw [chunkDiffs]
      exact List.mem_map.mpr ⟨i, List.mem_range.mpr (by omega), rfl⟩
    have hq := h _ hmem
    rw [beq_iff_eq] at hq
    rw [List.getD_eq_getElem _ _ hb2, List.getD_eq_getElem _ _ hb1] at hq
    exact hq
  · intro h x hx
    rw [chunkDiffs] at hx
    obtain ⟨j, hj, rfl⟩ := List.mem_map.mp hx
    rw [List.mem_range] at hj
    have hb1 : j < chunk.length := by omega
    have hb2 : j + 1 < chunk.length := by omega
    have hq := h j (by omega)
    rw [List.get_eq_getElem, List.get_eq_getElem, hR] at hq
    rw [beq_iff_eq, List.getD_eq_getElem _ _ hb2, List.getD_eq_getElem _ _ hb1]
    exact hq

/-- C7, counterexample to the claim as stated: with window length 0 the
source returns true even for the empty password, since the empty window has
an empty difference list and `all` of an empty list holds. -/
theorem simple_sequence_empty_counterexample : has_simple_sequence "" 0 = true := by decide

/-- C7, amended: has_simple_sequence is true exactly when some window of
the given length in the lowercased password ascends or descends by one code
point per step (for window length 0 this is vacuously true of every
password, the empty one included); for a positive window length, a password
shorter than the window — in particular an empty one — never triggers. -/
theorem simple_sequence_iff_window (p : String) (m : ℕ) :
    (has_simple_sequence p m = true ↔
      ∃ i, i + m ≤ (strLower p).data.length ∧
        (List.Chain' (fun a b : Char => b.toNat = a.toNat + 1)
            (((strLower p).data.drop i).take m) ∨
         List.Chain' (fun a b : Char => b.toNat + 1 = a.toNat)
            (((strLower p).data.drop i).take m))) ∧
    (1 ≤ m → (strLower p).data.length < m → has_simple_sequence p m = false) := by
  have hmain : has_simple_sequence p m = true ↔
      ∃ i, i + m ≤ (strLower p).data.length ∧
        (List.Chain' (fun a b : Char => b.toNat = a.toNat + 1)
            (((strLower p).data.drop i).take m) ∨
         List.Chain' (fun a b : Char => b.toNat + 1 = a.toNat)
            (((strLower p).data.drop i).take m)) := by
    simp only [has_simple_sequence, List.any_eq_true, List.mem_range, Bool.or_eq_true]
    constructor
    · rintro ⟨i, hiN, hcheck⟩
      have hi : i + m ≤ (strLower p).data.length := by omega
      have hml : (((strLower p).data.drop i).take m).length = m := by
        rw [List.length_take, List.length_drop, inf_eq_min]
        omega
      refine ⟨i, hi, ?_⟩
      rcases hcheck with hasc | hdesc
      · exact Or.inl ((chunkDiffs_all_iff _ m hml 1 _ (fun a b => by omega)).mp hasc)
      · exact Or.inr ((chunkDiffs_all_iff _ m hml (-1) _ (fun a b => by omega)).mp hdesc)
    · rintro ⟨i, hi, hwin⟩
      have hml : (((strLower p).data.drop i).take m).length = m := by
        rw [List.length_take, List.length_drop, inf_eq_min]
        omega
      refine ⟨i, by omega, ?_⟩
      rcases hwin with hasc | hdesc
      · exact Or.inl ((chunkDiffs_all_iff _ m hml 1 _ (fun a b => by omega)).mpr hasc)
      · exact Or.inr ((chunkDiffs_all_iff _ m hml (-1) _ (fun a b => by omega)).mpr hdesc)
  refine ⟨hmain, ?_⟩
  intro h1 hlt
  rw [← Bool.not_eq_true, hmain]
  rintro ⟨i, hi, _⟩
  omega

/-- Witness for C7 at a short password and the default window length. -/
theorem simple_sequence_iff_window_witness :
    1 ≤ 4 ∧ (strLower "abc").data.length < 4 ∧ has_simple_sequence "abc" 4 = false :=
  ⟨by decide, by decide, (simple_sequence_iff_window "abc" 4).2 (by decide) (by decide)⟩

